import Mathlib

/-!
Verification development for the repo_agent repository.

This file shallowly embeds the parts of the code base that the verified
properties talk about:

* the agent reasoning loop of src/repo_agent/agent/loop.py
  (tool-call normalization, deduplication, the two call counters,
  the rate-limit retry helper, event emission);
* the session worker and event buffer of
  src/repo_agent/daemon/session_manager.py;
* the HTTP POST routing of src/repo_agent/daemon/app.py;
* the read-only repository tools of src/repo_agent/tools/repo.py
  (path resolution and containment, ranged file read, directory listing)
  and the tool dispatch of the loop.

Conventions used throughout:

* Python machine-independent ints are Int, non-negative counters are Nat.
* Python floats that only ever hold decimal literals clamped against 60 are
  modelled as exact rationals (Rat).
* Python dicts used as JSON objects are association lists preserving
  insertion order; dict lookup is first-match lookup after prepending on
  write, which coincides with dict semantics for reads.
* Python exceptions are modelled with Except / explicit outcome types.
* Filesystem contents are a finite tree (FsNode); symbolic links are not
  modelled, so Path.resolve is pure "." / ".." normalization.
-/

namespace RepoAgent

/-! ## JSON argument values and canonical serialization

The loop builds tool-call signatures with
json.dumps(args, ensure_ascii=False, sort_keys=True, separators=(",", ":")).
Tool arguments in this program are strings and ints (see the tool schemas in
src/repo_agent/tools/registry.py), plus bools/null for generality.
-/

/-- JSON-like values appearing in tool-call argument objects. -/
inductive JVal : Type where
  | str (s : String)
  | int (n : Int)
  | bool (b : Bool)
  | null
  deriving DecidableEq, Repr

/-- Lower-case hex digit, used for JSON control-character escapes. -/
def hexDigit (n : Nat) : Char :=
  if n < 10 then Char.ofNat (48 + n) else Char.ofNat (87 + n)

/-- How json.dumps (ensure_ascii=False) escapes a single character. -/
def jsonEscapeChar (c : Char) : String :=
  if c = '"' then "\\\""
  else if c = '\\' then "\\\\"
  else if c = '\n' then "\\n"
  else if c = '\t' then "\\t"
  else if c = '\r' then "\\r"
  else if c.toNat = 8 then "\\b"
  else if c.toNat = 12 then "\\f"
  else if c.toNat < 32 then
    "\\u00" ++ String.mk [hexDigit (c.toNat / 16), hexDigit (c.toNat % 16)]
  else String.mk [c]

/-- JSON string-body escaping. -/
def jsonEscape (s : String) : String :=
  String.join (s.toList.map jsonEscapeChar)

/-- Serialization of a single JSON value as json.dumps renders it. -/
def JVal.dump : JVal → String
  | JVal.str s => "\"" ++ jsonEscape s ++ "\""
  | JVal.int n => toString n
  | JVal.bool b => if b then "true" else "false"
  | JVal.null => "null"

/-- Insert a key/value pair into a key-sorted association list. -/
def insertByKey (p : String × JVal) : List (String × JVal) → List (String × JVal)
  | [] => [p]
  | q :: rest => if p.1 < q.1 then p :: q :: rest else q :: insertByKey p rest

/-- Sort an argument object by key (sort_keys=True; keys are unique in a dict). -/
def sortArgsByKey : List (String × JVal) → List (String × JVal)
  | [] => []
  | p :: rest => insertByKey p (sortArgsByKey rest)

/-- json.dumps of an argument object with sorted keys and separators (",", ":").
Braces are written with their escape codes. -/
def dumpArgsObject (args : List (String × JVal)) : String :=
  let items := (sortArgsByKey args).map
    (fun p => "\"" ++ jsonEscape p.1 ++ "\":" ++ p.2.dump)
  "\x7b" ++ String.intercalate "," items ++ "\x7d"

/-- _build_tool_signature from src/repo_agent/agent/loop.py.  The TypeError
fallback of the source (args unserializable) is unreachable for JVal
arguments, which are always serializable. -/
def buildToolSignature (name : String) (args : List (String × JVal)) : String :=
  name ++ "|" ++ dumpArgsObject args

/-! ## Normalized tool calls, history messages and loop events

The loop is embedded for the OpenAI-style ("kimi") provider dialect, whose
history entries are plain dicts; the loop logic itself
(src/repo_agent/agent/loop.py, agent_turn) is provider-independent except
for the call_id synthesis and the history append formats.
-/

/-- One serialized entry of the assistant payload's tool_calls array, as
built by _invoke_kimi (id preserved verbatim, may be missing). -/
structure SerializedToolCall where
  id : Option String
  name : String
  argumentsText : String
  deriving DecidableEq, Repr

/-- An OpenAI-style history message (a Python dict).  toolCallId is the
tool_call_id key of tool-role messages; toolCalls is the serialized
tool_calls array of assistant payloads (empty list when the key is absent). -/
structure KimiMsg where
  role : String
  content : String
  toolCallId : Option String := none
  toolCalls : List SerializedToolCall := []
  deriving DecidableEq, Repr

/-- FunctionCallRecord from loop.py, normalized by _invoke_kimi:
args is json.loads of argumentsText (empty or invalid text parses to the
empty object); argumentsText is the provider's raw arguments string. -/
structure FCall where
  name : String
  args : List (String × JVal)
  argumentsText : String
  callId : Option String
  deriving DecidableEq, Repr

/-- One model response after normalization: message.content (or "") and the
normalized tool calls. -/
structure ModelResponse where
  text : String
  calls : List FCall
  deriving DecidableEq, Repr

/-- The events agent_turn emits through _emit_event. -/
inductive LoopEvent : Type where
  | toolCall (index : Nat) (name : String) (args : List (String × JVal))
  | toolDeduplicated (name : String) (args : List (String × JVal))
  | toolResult (name : String) (preview : String)
  | warning (message : String)
  deriving DecidableEq, Repr

/-- Whether an event is a tool_call event. -/
def isToolCallEvent : LoopEvent → Bool
  | LoopEvent.toolCall _ _ _ => true
  | _ => false

/-- _emit_event from loop.py: with a handler the call is wrapped in
try/except and any exception from the handler is caught and discarded
("事件回调不应影响主流程"); without a handler the default console printer
runs.  The handler may raise (Except.error); _emit_event never does. -/
def emitEventE (ε : Type) (handler : Option (LoopEvent → Except ε Unit))
    (ev : LoopEvent) : Except ε Unit :=
  match handler with
  | none => Except.ok ()
  | some h =>
    match h ev with
    | Except.ok _ => Except.ok ()
    | Except.error _ => Except.ok ()

/-- The mutable state of one agent_turn invocation. -/
structure LoopState where
  history : List KimiMsg
  toolCallCount : Nat
  rawToolCallCount : Nat
  toolResultCache : List (String × String)
  lastToolSignature : Option String
  toolResultPreviews : List String
  events : List LoopEvent
  deriving DecidableEq, Repr

/-- Emit one event: invoke the handler via _emit_event (result discarded,
as in the source) and record the event. -/
def emitLoop (ε : Type) (handler : Option (LoopEvent → Except ε Unit))
    (st : LoopState) (ev : LoopEvent) : LoopState :=
  let _ := emitEventE ε handler ev
  { st with events := st.events ++ [ev] }

/-- Preview trimming: result[:200] + "..." when longer than 200 chars. -/
def resultPreview (result : String) : String :=
  if result.length > 200 then result.take 200 ++ "..." else result

/-- Result of handling one normalized tool call. -/
structure CallStep where
  state : LoopState
  call : FCall
  result : String
  deriving Repr

/-- The per-call body of the for-loop over function_calls in agent_turn:
raw counter increment, kimi call_id synthesis (Python "not fc.call_id" is
true for both None and the empty string), tool_call event, signature,
consecutive-duplicate check against the previous signature and the result
cache, execution or cached reuse, preview bookkeeping. -/
def processCall (ε : Type) (handler : Option (LoopEvent → Except ε Unit))
    (exec : String → List (String × JVal) → String)
    (st : LoopState) (fc : FCall) : CallStep :=
  let raw := st.rawToolCallCount + 1
  let callId :=
    if fc.callId.getD "" = "" then some ("call_" ++ toString raw) else fc.callId
  let fc := { fc with callId := callId }
  let st := { st with rawToolCallCount := raw }
  let st := emitLoop ε handler st (LoopEvent.toolCall raw fc.name fc.args)
  let signature := buildToolSignature fc.name fc.args
  let cached := List.lookup signature st.toolResultCache
  let stResult :=
    if (st.lastToolSignature == some signature) && cached.isSome then
      (emitLoop ε handler st (LoopEvent.toolDeduplicated fc.name fc.args),
       cached.getD "")
    else
      let result := exec fc.name fc.args
      ({ st with
          toolCallCount := st.toolCallCount + 1,
          toolResultCache := (signature, result) :: st.toolResultCache },
       result)
  let st := stResult.1
  let result := stResult.2
  let preview := resultPreview result
  let st := emitLoop ε handler st (LoopEvent.toolResult fc.name preview)
  let st :=
    { st with
        toolResultPreviews := st.toolResultPreviews ++ [fc.name ++ ": " ++ preview],
        lastToolSignature := some signature }
  ⟨st, fc, result⟩

/-- State plus accumulated (call, result) pairs after a batch. -/
structure BatchStep where
  state : LoopState
  results : List (FCall × String)
  deriving Repr

/-- The for-loop over the normalized calls of one model response,
accumulating tool_results in order. -/
def processBatchGo (ε : Type) (handler : Option (LoopEvent → Except ε Unit))
    (exec : String → List (String × JVal) → String) :
    LoopState → List (FCall × String) → List FCall → BatchStep
  | st, acc, [] => ⟨st, acc⟩
  | st, acc, fc :: rest =>
    let step := processCall ε handler exec st fc
    processBatchGo ε handler exec step.state
      (acc ++ [(step.call, step.result)]) rest

/-- Handling of all function calls of one model response, in order. -/
def processBatch (ε : Type) (handler : Option (LoopEvent → Except ε Unit))
    (exec : String → List (String × JVal) → String)
    (st : LoopState) (calls : List FCall) : BatchStep :=
  processBatchGo ε handler exec st [] calls

/-- _append_tool_results for the kimi dialect: one tool-role message per
result keyed by tool_call_id (fc.call_id or ""). -/
def appendToolResults (st : LoopState) (results : List (FCall × String)) : LoopState :=
  { st with
      history := st.history ++ results.map (fun pr =>
        { role := "tool", content := pr.2,
          toolCallId := some (pr.1.callId.getD ""), toolCalls := [] }) }

/-- MAX_TOOL_CALLS_PER_TURN: the effective-call cap (value 15, defined at
src/agent.py line 57 and re-exported by the prompts module). -/
def MAX_TOOL_CALLS_PER_TURN : Nat := 15

/-- MAX_RAW_TOOL_CALLS_PER_TURN from loop.py. -/
def MAX_RAW_TOOL_CALLS_PER_TURN : Nat := 60

/-- Python list[-5:]: the last five entries. -/
def lastFive (l : List String) : List String := l.drop (l.length - 5)

/-- _build_tool_cap_answer from loop.py. -/
def buildToolCapAnswer (toolCallCount maxCalls : Nat) (previews : List String)
    (rawToolCallCount rawLimit : Option Nat) : String :=
  let effectiveLine :=
    "本轮已达到工具调用上限（有效调用 " ++ toString toolCallCount ++ "/" ++
      toString maxCalls ++ "），为降低请求次数已停止继续调用模型。"
  let firstLine :=
    match rawToolCallCount, rawLimit with
    | some raw, some rlim =>
      if rlim ≤ raw then
        "本轮检测到工具请求过多（原始请求 " ++ toString raw ++ "/" ++
          toString rlim ++ "），可能存在重复调用循环，已停止继续调用模型。"
      else effectiveLine
    | _, _ => effectiveLine
  let lines := [firstLine]
  let lines :=
    if previews.isEmpty then lines
    else lines ++ ["已获取信息摘要："] ++ previews.map (fun p => "- " ++ p)
  let lines := lines ++ ["如需更精确结果，请缩小提问范围后重试。"]
  String.intercalate "\n" lines

/-- The serialized tool_calls array of the kimi assistant payload
(arguments text defaulted to the empty object when empty, as in
_invoke_kimi; ids are the provider's, before any loop-side synthesis). -/
def serializeToolCalls (calls : List FCall) : List SerializedToolCall :=
  calls.map (fun fc =>
    ⟨fc.callId, fc.name,
     if fc.argumentsText = "" then "\x7b\x7d" else fc.argumentsText⟩)

/-- The assistant payload appended to history after each model invocation. -/
def assistantPayloadMsg (r : ModelResponse) : KimiMsg :=
  { role := "assistant", content := r.text, toolCallId := none,
    toolCalls := if r.calls.isEmpty then [] else serializeToolCalls r.calls }

/-- Placeholder answer when the model returns neither tool calls nor text. -/
def PLACEHOLDER_ANSWER : String := "(模型未返回文本内容)"

/-- Result of one agent_turn: the final answer (none when the scripted model
ran out of responses, i.e. behavior past the script horizon) and the final
loop state. -/
structure TurnResult where
  answer : Option String
  state : LoopState
  deriving Repr

/-- The while-loop of agent_turn.  The model is a script of normalized
responses consumed one per iteration; tool execution is the abstract
function exec (instantiated with executeTool below). -/
def agentTurnGo (ε : Type) (handler : Option (LoopEvent → Except ε Unit))
    (exec : String → List (String × JVal) → String) :
    List ModelResponse → LoopState → TurnResult
  | [], st => ⟨none, st⟩
  | r :: rest, st =>
    let st := { st with history := st.history ++ [assistantPayloadMsg r] }
    if r.calls.isEmpty then
      ⟨some (if r.text = "" then PLACEHOLDER_ANSWER else r.text), st⟩
    else
      let batch := processBatch ε handler exec st r.calls
      let st := appendToolResults batch.state batch.results
      if MAX_TOOL_CALLS_PER_TURN ≤ st.toolCallCount then
        let st := emitLoop ε handler st (LoopEvent.warning
          ("已达到单轮最大有效工具调用次数 (" ++ toString MAX_TOOL_CALLS_PER_TURN ++
            ")，强制结束。"))
        let localAnswer := buildToolCapAnswer st.toolCallCount
          MAX_TOOL_CALLS_PER_TURN (lastFive st.toolResultPreviews) none none
        let st := { st with
          history := st.history ++ [{ role := "assistant", content := localAnswer }] }
        ⟨some localAnswer, st⟩
      else if MAX_RAW_TOOL_CALLS_PER_TURN ≤ st.rawToolCallCount then
        let st := emitLoop ε handler st (LoopEvent.warning
          ("原始工具请求次数过多 (" ++ toString st.rawToolCallCount ++ "/" ++
            toString MAX_RAW_TOOL_CALLS_PER_TURN ++ ")，疑似重复循环，强制结束。"))
        let localAnswer := buildToolCapAnswer st.toolCallCount
          MAX_TOOL_CALLS_PER_TURN (lastFive st.toolResultPreviews)
          (some st.rawToolCallCount) (some MAX_RAW_TOOL_CALLS_PER_TURN)
        let st := { st with
          history := st.history ++ [{ role := "assistant", content := localAnswer }] }
        ⟨some localAnswer, st⟩
      else agentTurnGo ε handler exec rest st

/-- _append_user_message for the kimi dialect. -/
def appendUserMessage (history : List KimiMsg) (userInput : String) : List KimiMsg :=
  history ++ [{ role := "user", content := userInput }]

/-- agent_turn from loop.py: append the user message, then iterate model
invocation and tool dispatch with fresh counters, cache and previews. -/
def agentTurn (ε : Type) (handler : Option (LoopEvent → Except ε Unit))
    (exec : String → List (String × JVal) → String)
    (script : List ModelResponse) (history : List KimiMsg)
    (userInput : String) : TurnResult :=
  agentTurnGo ε handler exec script
    { history := appendUserMessage history userInput,
      toolCallCount := 0, rawToolCallCount := 0, toolResultCache := [],
      lastToolSignature := none, toolResultPreviews := [], events := [] }

/-! ## The rate-limit retry helper (_call_with_retry in loop.py)

The wrapped request is modelled as a function from the 1-based attempt
number to the outcome of that invocation.  The regex
retry\s+in\s+([\d.]+)s with re.IGNORECASE is implemented directly over the
character list; \s and \d are modelled on their ASCII ranges (the
counterexamples and witnesses below use ASCII-only messages).  Python
float() of the captured group is exact-rational here; it raises ValueError
when the captured digits-and-dots text has no digit or more than one dot.
-/

/-- Substring check with the needle first (Python "x in s"). -/
def listStartsWithChars : List Char → List Char → Bool
  | [], _ => true
  | _ :: _, [] => false
  | a :: as, b :: bs => a = b && listStartsWithChars as bs

/-- Python str.startswith. -/
def pyStartsWith (s pre : String) : Bool :=
  listStartsWithChars pre.toList s.toList

/-- Python str.split(sep) over the character list (accumulator reversed on
each separator); "".split(sep) gives [""]. -/
def pySplitGo (sep : Char) : List Char → List Char → List String
  | acc, [] => [String.mk acc.reverse]
  | acc, c :: rest =>
    if c = sep then String.mk acc.reverse :: pySplitGo sep [] rest
    else pySplitGo sep (c :: acc) rest

/-- Python str.split with a single-character separator. -/
def pySplit (s : String) (sep : Char) : List String :=
  pySplitGo sep [] s.toList

/-- Whether hay contains needle as a contiguous substring. -/
def listContainsSub (needle : List Char) : List Char → Bool
  | [] => listStartsWithChars needle []
  | c :: cs => listStartsWithChars needle (c :: cs) || listContainsSub needle cs

/-- Python substring containment on strings. -/
def strContains (hay needle : String) : Bool :=
  listContainsSub needle.toList hay.toList

/-- The rate-limit test of _call_with_retry:
"429" in error_msg or "RESOURCE_EXHAUSTED" in error_msg. -/
def isRateLimitError (msg : String) : Bool :=
  strContains msg "429" || strContains msg "RESOURCE_EXHAUSTED"

/-- ASCII whitespace matched by the regex class \s (and stripped by
str.rstrip): space, tab, newline, carriage return, vertical tab, form feed. -/
def pyIsSpaceChar (c : Char) : Bool :=
  c = ' ' || c = '\t' || c = '\n' || c = '\r' || c.toNat = 11 || c.toNat = 12

/-- A character of the regex class [\d.]. -/
def isNumChar (c : Char) : Bool := c.isDigit || c = '.'

/-- Case-insensitive literal match; returns the remaining input. -/
def matchLitCI : List Char → List Char → Option (List Char)
  | [], cs => some cs
  | _ :: _, [] => none
  | l :: ls, c :: cs => if c.toLower = l.toLower then matchLitCI ls cs else none

/-- Try to match retry\s+in\s+([\d.]+)s at exactly this position, returning
the captured group.  The greedy quantifiers need no backtracking here: the
character after each maximal \s+ run is not whitespace, and the character
after the maximal [\d.]+ run is the only place the literal s can match. -/
def matchRetryAt (cs : List Char) : Option (List Char) :=
  match matchLitCI "retry".toList cs with
  | none => none
  | some cs =>
    match cs with
    | [] => none
    | c :: rest =>
      if pyIsSpaceChar c then
        let cs := rest.dropWhile pyIsSpaceChar
        match matchLitCI "in".toList cs with
        | none => none
        | some cs =>
          match cs with
          | [] => none
          | c :: rest =>
            if pyIsSpaceChar c then
              let cs := rest.dropWhile pyIsSpaceChar
              let grp := cs.takeWhile isNumChar
              match cs.dropWhile isNumChar with
              | [] => none
              | c :: _ =>
                if grp.isEmpty then none
                else if c.toLower = 's' then some grp else none
            else none
      else none

/-- re.search: the captured group of the leftmost match, if any. -/
def reSearchRetryGroup : List Char → Option (List Char)
  | [] => none
  | c :: cs =>
    match matchRetryAt (c :: cs) with
    | some grp => some grp
    | none => reSearchRetryGroup cs

/-- Decimal digits to a natural number. -/
def natOfDigits (cs : List Char) : Nat :=
  cs.foldl (fun acc c => acc * 10 + (c.toNat - 48)) 0

/-- Exact value of a digits-and-dots literal with at most one dot. -/
def ratOfNumChars (cs : List Char) : Rat :=
  let intPart := cs.takeWhile (fun c => !(c == '.'))
  let fracPart := (cs.dropWhile (fun c => !(c == '.'))).drop 1
  (natOfDigits intPart : Rat) + (natOfDigits fracPart : Rat) / (10 : Rat) ^ fracPart.length

/-- Python float() on a nonempty [\d.]+ group: defined exactly when the
text has at most one dot and at least one digit, ValueError otherwise. -/
def parsePyFloat (cs : List Char) : Option Rat :=
  if cs.countP (fun c => c == '.') ≤ 1 && cs.any Char.isDigit then
    some (ratOfNumChars cs)
  else none

/-- DEFAULT_RETRY_DELAY from loop.py (seconds). -/
def DEFAULT_RETRY_DELAY : Rat := 10

/-- MAX_RETRIES from loop.py. -/
def MAX_RETRIES : Nat := 3

/-- The delay computation inside the except-branch of _call_with_retry:
no regex match keeps the 10s default; a match is float()ed and clamped with
min(·, 60); an unparseable captured group raises ValueError (carried as
Except.error with the bad group text). -/
def computeRetryDelay (errorMsg : String) : Except String Rat :=
  match reSearchRetryGroup errorMsg.toList with
  | none => Except.ok DEFAULT_RETRY_DELAY
  | some grp =>
    match parsePyFloat grp with
    | none => Except.error (String.mk grp)
    | some q => Except.ok (min q 60)

/-- Outcome of one invocation of the wrapped request function. -/
inductive CallOutcome (α : Type) : Type where
  | ok (v : α)
  | raise (msg : String)
  deriving DecidableEq, Repr

/-- Final outcome of _call_with_retry: the value, the re-raised original
exception, or the ValueError escaping from float() on the captured group. -/
inductive RetryResult (α : Type) : Type where
  | ok (v : α)
  | raised (msg : String)
  | valueError (badGroup : String)
  deriving DecidableEq, Repr

/-- Events emitted by the retry helper. -/
inductive RetryEvent : Type where
  | rateLimitRetry (attempt : Nat) (delaySeconds : Rat)
  | rateLimitFailed (maxRetries : Nat)
  deriving DecidableEq, Repr

/-- One run of _call_with_retry: outcome, emitted events, the sleeps
performed, and how many attempts (invocations of the request) were made. -/
structure RetryRun (α : Type) where
  result : RetryResult α
  events : List RetryEvent
  sleeps : List Rat
  attemptsMade : Nat
  deriving DecidableEq, Repr

/-- The for-loop of _call_with_retry, starting at the given attempt number.
fuel = MAX_RETRIES - attempt + 1 remaining iterations; the fuel-zero branch
is unreachable because recursion only happens while attempt < MAX_RETRIES. -/
def callWithRetryGo (α : Type) (f : Nat → CallOutcome α) :
    Nat → Nat → List RetryEvent → List Rat → RetryRun α
  | _, 0, events, sleeps => ⟨RetryResult.raised "", events, sleeps, 0⟩
  | attempt, fuel + 1, events, sleeps =>
    match f attempt with
    | CallOutcome.ok v => ⟨RetryResult.ok v, events, sleeps, attempt⟩
    | CallOutcome.raise msg =>
      if isRateLimitError msg then
        match computeRetryDelay msg with
        | Except.error grp => ⟨RetryResult.valueError grp, events, sleeps, attempt⟩
        | Except.ok delay =>
          if attempt < MAX_RETRIES then
            callWithRetryGo α f (attempt + 1) fuel
              (events ++ [RetryEvent.rateLimitRetry attempt delay])
              (sleeps ++ [delay])
          else
            ⟨RetryResult.raised msg,
             events ++ [RetryEvent.rateLimitFailed MAX_RETRIES], sleeps, attempt⟩
      else ⟨RetryResult.raised msg, events, sleeps, attempt⟩

/-- _call_with_retry from loop.py. -/
def callWithRetry (α : Type) (f : Nat → CallOutcome α) : RetryRun α :=
  callWithRetryGo α f 1 MAX_RETRIES [] []

/-! ## The per-session event buffer
(AgentSession._append_event / AgentSession.get_events in
src/repo_agent/daemon/session_manager.py)

The condition-variable wait of get_events only affects timing (which buffer
snapshot is observed), not the computation on a given snapshot, so the
embedding takes the snapshot as input and ignores wait_ms.
-/

/-- A buffered event; only the id and type matter for the buffer logic. -/
structure BufEvent where
  eventId : Nat
  eventType : String
  deriving DecidableEq, Repr

/-- The event-buffer fields of AgentSession. -/
structure EventBuffer where
  maxEvents : Nat
  events : List BufEvent
  lastEventId : Nat
  deriving DecidableEq, Repr

/-- AgentSession._append_event: increment last_event_id, append, trim the
head while oversize.  Python computes overflow = len - max and deletes the
first overflow entries only when positive; Nat subtraction makes drop 0 the
no-op branch. -/
def appendEvent (buf : EventBuffer) (eventType : String) : EventBuffer :=
  let newId := buf.lastEventId + 1
  let events := buf.events ++ [⟨newId, eventType⟩]
  let overflow := events.length - buf.maxEvents
  { buf with events := events.drop overflow, lastEventId := newId }

/-- The payload get_events returns. -/
structure EventsResponse where
  events : List BufEvent
  lastEventId : Nat
  oldestEventId : Nat
  droppedEvents : Int
  deriving DecidableEq, Repr

/-- AgentSession.get_events on a buffer snapshot: the buffered events with
event_id > after, truncated to limit when limit > 0; oldest_event_id is the
head id or last_event_id + 1 on an empty buffer; dropped_events is
max(0, oldest_event_id - after - 1). -/
def getEvents (buf : EventBuffer) (after : Nat) (limit : Nat) : EventsResponse :=
  let evs := buf.events.filter (fun e => after < e.eventId)
  let evs := if 0 < limit then evs.take limit else evs
  let oldest :=
    match buf.events.head? with
    | some e => e.eventId
    | none => buf.lastEventId + 1
  { events := evs, lastEventId := buf.lastEventId, oldestEventId := oldest,
    droppedEvents := max 0 ((oldest : Int) - (after : Int) - 1) }

/-- A fresh session's buffer. -/
def emptyBuffer (maxEvents : Nat) : EventBuffer := ⟨maxEvents, [], 0⟩

/-- The buffer after n appends to a fresh session. -/
def buildBuffer (maxEvents : Nat) : Nat → EventBuffer
  | 0 => emptyBuffer maxEvents
  | n + 1 => appendEvent (buildBuffer maxEvents n) "e"

/-! ## Session worker: turn execution, rollback, clear
(AgentSession._run_turn / _rollback_last_user_message /
_drop_pending_turns / clear in session_manager.py)
-/

/-- A queued TurnRequest (created_at omitted: never read by the logic). -/
structure TurnReq where
  turnId : Nat
  userInput : String
  deriving DecidableEq, Repr

/-- _drop_pending_turns: pop until empty; a popped None stop-sentinel is
pushed back (to the end of the remaining queue) and the loop breaks;
popped requests are counted and discarded. -/
def dropPendingTurns : List (Option TurnReq) → Nat × List (Option TurnReq)
  | [] => (0, [])
  | none :: rest => (0, rest ++ [none])
  | some _ :: rest =>
    let pr := dropPendingTurns rest
    (pr.1 + 1, pr.2)

/-- Session-level events relevant to the worker and clear paths. -/
inductive SessionEvent : Type where
  | turnStarted (input : String)
  | userEvent (text : String)
  | answer (text : String)
  | errorEvent (message : String)
  | turnFinished (status : String)
  | sessionCleared (droppedPending : Nat)
  deriving DecidableEq, Repr

/-- What AgentSession.clear returns and leaves behind. -/
structure ClearResult where
  ok : Bool
  message : String
  history : List KimiMsg
  queue : List (Option TurnReq)
  emitted : List SessionEvent
  deriving DecidableEq, Repr

/-- AgentSession.clear: first drain the pending queue, then under the lock
reject when busy (no event emitted, history untouched), else clear history
and emit session_cleared with the drop count. -/
def clearSession (history : List KimiMsg) (queue : List (Option TurnReq))
    (busy : Bool) : ClearResult :=
  let dp := dropPendingTurns queue
  if busy then
    ⟨false, "当前有请求正在执行，暂不允许清空。", history, dp.2, []⟩
  else
    ⟨true, "会话已清空。", [], dp.2, [SessionEvent.sessionCleared dp.1]⟩

/-- _message_role from session_manager.py on a dict message. -/
def messageRole (m : KimiMsg) : String := m.role

/-- _rollback_last_user_message: pop the trailing message iff the history
is nonempty and its tail has role "user". -/
def rollbackLastUserMessage (history : List KimiMsg) : List KimiMsg :=
  match history.getLast? with
  | none => history
  | some m => if messageRole m = "user" then history.dropLast else history

/-- A Python exception, as the worker formats it: type(e).__name__ and str(e). -/
structure PyExc where
  kind : String
  message : String
  deriving DecidableEq, Repr

/-- The observable behavior of one agent_turn call as seen by _run_turn:
the messages it appended to the shared history after the user message
(on failure, the ones appended before the exception) and its outcome. -/
structure TurnExec where
  appended : List KimiMsg
  outcome : Except PyExc String
  deriving Repr

/-- History and events produced by one _run_turn execution.  The busy-flag
transitions and the turn_id stamping are omitted: they do not affect
history or the event sequence shape stated below. -/
structure RunTurnResult where
  history : List KimiMsg
  emitted : List SessionEvent
  deriving Repr

/-- AgentSession._run_turn: emit turn_started and user, run the turn (the
loop first appends the user message), then on success emit answer and
turn_finished "completed"; on exception roll back a trailing user message
and emit error "<Kind>: <message>" and turn_finished "failed". -/
def runTurn (history : List KimiMsg) (request : TurnReq) (t : TurnExec) :
    RunTurnResult :=
  let input := request.userInput
  let preEvents := [SessionEvent.turnStarted input, SessionEvent.userEvent input]
  let historyDuring := appendUserMessage history input ++ t.appended
  match t.outcome with
  | Except.ok ans =>
    ⟨historyDuring,
     preEvents ++ [SessionEvent.answer ans, SessionEvent.turnFinished "completed"]⟩
  | Except.error exc =>
    ⟨rollbackLastUserMessage historyDuring,
     preEvents ++ [SessionEvent.errorEvent (exc.kind ++ ": " ++ exc.message),
                   SessionEvent.turnFinished "failed"]⟩

/-! ## Repository tools (src/repo_agent/tools/repo.py)

The filesystem is a finite tree of directories and text files (a file's
lines are stored already split; is_text_file records the verdict of
_is_text_file, i.e. extension and size checks).  Absolute canonical paths
are component lists from the filesystem root; the project root is such a
list.  Path.resolve without symbolic links is pure normalization of "."
and ".." (".." above the filesystem root stays at the root, as in POSIX).
-/

/-- A filesystem node. -/
inductive FsNode : Type where
  | file (lines : List String) (isTextOk : Bool)
  | dir (entries : List (String × FsNode))
  deriving Repr

/-- Follow a canonical component path from a node. -/
def lookupPath (node : FsNode) : List String → Option FsNode
  | [] => some node
  | c :: rest =>
    match node with
    | FsNode.file _ _ => none
    | FsNode.dir entries =>
      match List.lookup c entries with
      | none => none
      | some child => lookupPath child rest

/-- SKIP_DIRS from repo.py. -/
def SKIP_DIRS : List String :=
  [".git", ".svn", ".hg",
   "__pycache__", ".mypy_cache", ".pytest_cache",
   "node_modules", ".venv", "venv", "env",
   ".tox", ".eggs", "dist", "build",
   ".idea", ".vscode"]

/-- _should_skip_dir: a skiplisted name or any dot-directory. -/
def shouldSkipDir (dirname : String) : Bool :=
  SKIP_DIRS.contains dirname || pyStartsWith dirname "."

/-- Normalization step of Path.resolve over raw components: empty and "."
are dropped, ".." pops (staying put at the filesystem root), anything else
descends. -/
def resolveComponents (base : List String) (comps : List String) : List String :=
  comps.foldl
    (fun acc c =>
      if c = "" || c = "." then acc
      else if c = ".." then acc.dropLast
      else acc ++ [c])
    base

/-- (root / path_str).resolve(): an absolute path_str replaces the root
(pathlib join semantics), a relative one is resolved against it. -/
def resolveUnderRoot (root : List String) (pathStr : String) : List String :=
  let comps := pySplit pathStr '/'
  let base := if pyStartsWith pathStr "/" then [] else root
  resolveComponents base comps

/-- Component-list containment: root equals target or is an ancestor,
exactly when target.relative_to(root) succeeds. -/
def isUnder : List String → List String → Bool
  | [], _ => true
  | _ :: _, [] => false
  | a :: as, b :: bs => a = b && isUnder as bs

/-- _safe_resolve from repo.py: resolve, then verify containment in the
canonical root; unsafe paths give None.  (The OSError branch of the source
needs OS faults that this pure model does not have.) -/
def safeResolve (root : List String) (pathStr : String) : Option (List String) :=
  let target := resolveUnderRoot root pathStr
  if isUnder root target then some target else none

/-- str.rstrip() on the ASCII whitespace set. -/
def pyRstrip (s : String) : String :=
  String.mk ((s.toList.reverse.dropWhile pyIsSpaceChar).reverse)

/-- Right-aligned line number of width 4 (the f-string {i:>4}). -/
def padLeft4 (n : Nat) : String :=
  let s := toString n
  if s.length < 4 then String.mk (List.replicate (4 - s.length) ' ') ++ s else s

/-- The line-range clamping of read_file: start = max(1, start);
end = max(start, end); if end - start > 200 then end = start + 200.
Returns the clamped pair as naturals (the clamped start is ≥ 1). -/
def clampReadRange (startLine endLine : Int) : Nat × Nat :=
  let s := max 1 startLine
  let e := max s endLine
  let e := if 200 < e - s then s + 200 else e
  (s.toNat, e.toNat)

/-- The slice lines[start-1 : end] of the 1-based inclusive range. -/
def selectLines (lines : List String) (s e : Nat) : List String :=
  (lines.drop (s - 1)).take (e + 1 - s)

/-- The clamp-then-slice pipeline of read_file on a file's lines. -/
def readFileRange (lines : List String) (startLine endLine : Int) : List String :=
  let se := clampReadRange startLine endLine
  selectLines lines se.1 se.2

/-- read_file from repo.py over the filesystem model: path safety, existence
and file/text checks, clamped 1-based inclusive range, numbered output. -/
def readFile (fsRoot : FsNode) (root : List String) (path : String)
    (startLine endLine : Int) : String :=
  match safeResolve root path with
  | none => "错误：路径不安全或不在项目目录内：" ++ path
  | some target =>
    match lookupPath fsRoot target with
    | none => "错误：文件不存在：" ++ path
    | some (FsNode.dir _) => "错误：路径不是文件：" ++ path
    | some (FsNode.file lines isTextOk) =>
      if !isTextOk then "错误：文件不是文本文件或体积过大：" ++ path
      else
        let se := clampReadRange startLine endLine
        let sN := se.1
        let eN := se.2
        let totalLines := lines.length
        if totalLines < sN then
          "错误：起始行 " ++ toString sN ++ " 超出文件总行数 " ++
            toString totalLines ++ "。"
        else
          let selected := selectLines lines sN eN
          let body := selected.enum.map (fun p =>
            "  " ++ padLeft4 (sN + p.1) ++ " | " ++ pyRstrip p.2)
          "文件：" ++ path ++ "（第 " ++ toString sN ++ "-" ++
            toString (min eN totalLines) ++ " 行，共 " ++ toString totalLines ++
            " 行）\n" ++ String.intercalate "\n" body

/-- Whether an entry is a file (the sort key's first component). -/
def entryIsFile : FsNode → Bool
  | FsNode.file _ _ => true
  | FsNode.dir _ => false

/-- Strict order on the sort key (is_file, name): False < True, then name. -/
def entryKeyLt (a b : String × FsNode) : Bool :=
  (!(entryIsFile a.2) && entryIsFile b.2) ||
    (entryIsFile a.2 == entryIsFile b.2 && decide (a.1 < b.1))

/-- Weak order for the stable insertion sort. -/
def entryKeyLe (a b : String × FsNode) : Bool :=
  entryKeyLt a b ||
    (entryIsFile a.2 == entryIsFile b.2 && a.1 == b.1)

/-- Stable insertion into a key-sorted entry list. -/
def insertEntry (x : String × FsNode) :
    List (String × FsNode) → List (String × FsNode)
  | [] => [x]
  | y :: rest => if entryKeyLe x y then x :: y :: rest else y :: insertEntry x rest

/-- sorted(entries, key=lambda p: (p.is_file(), p.name)), stable. -/
def sortEntries : List (String × FsNode) → List (String × FsNode)
  | [] => []
  | x :: rest => insertEntry x (sortEntries rest)

mutual

/-- The _walk recursion of list_dir.  Depth d of the source corresponds to
fuel 3 - d: the source stops when depth > 2, so the initial call has fuel 2
and a recursive call at fuel 0 renders nothing. -/
def walkDirLevel : Nat → List (String × FsNode) → String → List String
  | 0, _, _ => []
  | fuel + 1, entries, pre =>
    let sortedE := sortEntries entries
    let dirs := sortedE.filter (fun p => !(entryIsFile p.2) && !(shouldSkipDir p.1))
    let files := sortedE.filter (fun p => entryIsFile p.2)
    renderEntryList fuel (dirs ++ files) pre

/-- Render the items of one directory level with tree connectors, recursing
into subdirectories at the remaining fuel. -/
def renderEntryList : Nat → List (String × FsNode) → String → List String
  | _, [], _ => []
  | fuel, p :: rest, pre =>
    let isLast := rest.isEmpty
    let connector := if isLast then "└── " else "├── "
    match p.2 with
    | FsNode.dir centries =>
      let extension := if isLast then "    " else "│   "
      (pre ++ connector ++ p.1 ++ "/") ::
        (walkDirLevel fuel centries (pre ++ extension) ++
          renderEntryList fuel rest pre)
    | FsNode.file _ _ =>
      (pre ++ connector ++ p.1) :: renderEntryList fuel rest pre

end

/-- list_dir from repo.py over the filesystem model: path safety, existence
and directory checks, then a two-level tree; a header line with the
root-relative display path, and the explicit empty-directory message. -/
def listDir (fsRoot : FsNode) (root : List String) (path : String) : String :=
  match safeResolve root path with
  | none => "错误：路径不安全或不在项目目录内：" ++ path
  | some target =>
    match lookupPath fsRoot target with
    | none => "错误：目录不存在：" ++ path
    | some (FsNode.file _ _) => "错误：路径不是目录：" ++ path
    | some (FsNode.dir entries) =>
      let relDisplay :=
        if target = root then "."
        else String.intercalate "/" (target.drop root.length)
      let headerLine := relDisplay ++ "/"
      let body := walkDirLevel 2 entries ""
      if body.isEmpty then "目录 " ++ path ++ " 为空。"
      else String.intercalate "\n" (headerLine :: body)

/-- Behavior of one registered tool function on given arguments: it returns
a string or raises. -/
inductive ToolOutcome : Type where
  | ok (value : String)
  | raises (excKind excMessage : String)
  deriving DecidableEq, Repr

/-- _execute_tool from loop.py: unknown names give a diagnostic string, a
raising tool is caught and formatted as 工具执行出错：<Kind>: <message>;
the dispatch itself always returns a string (it is a total function). -/
def executeTool (toolFunctions : String → Option (List (String × JVal) → ToolOutcome))
    (name : String) (args : List (String × JVal)) : String :=
  match toolFunctions name with
  | none => "错误：未知的工具函数 " ++ "\x27" ++ name ++ "\x27"
  | some f =>
    match f args with
    | ToolOutcome.ok value => value
    | ToolOutcome.raises k m => "工具执行出错：" ++ k ++ ": " ++ m

/-! ## HTTP POST routing (AgentDaemonHandler.do_POST in
src/repo_agent/daemon/app.py) -/

/-- parts = [part for part in parsed.path.split("/") if part]. -/
def splitPathParts (path : String) : List String :=
  (pySplit path '/').filter (fun part => part ≠ "")

/-- The POST routes do_POST dispatches to the session manager. -/
inductive PostRoute : Type where
  | createSession
  | submitTurn (sessionId : String)
  | clearRoute (sessionId : String)
  | cancelRoute (sessionId : String)
  | notFound (path : String)
  deriving DecidableEq, Repr

/-- The route dispatch of do_POST: the if-chain over the path parts; any
unmatched path (including /shutdown) falls through to the 404 tail. -/
def routePost (path : String) : PostRoute :=
  match splitPathParts path with
  | ["sessions"] => PostRoute.createSession
  | ["sessions", sid, "turns"] => PostRoute.submitTurn sid
  | ["sessions", sid, "clear"] => PostRoute.clearRoute sid
  | ["sessions", sid, "cancel"] => PostRoute.cancelRoute sid
  | _ => PostRoute.notFound path

/-- _check_auth: pass when no token is configured (None or empty), else the
X-Agent-Token header (empty string when absent) must equal it. -/
def checkAuth (authToken : Option String) (headerToken : String) : Bool :=
  match authToken with
  | none => true
  | some token => if token = "" then true else headerToken == token

/-- What the handler does with a POST before touching the session manager:
reject bad auth with 401, dispatch known routes, or answer 404. -/
inductive DaemonReply : Type where
  | handled (route : PostRoute)
  | errorJson (status : Nat) (message : String)
  deriving DecidableEq, Repr

/-- do_POST up to manager dispatch. -/
def doPost (authToken : Option String) (headerToken : String) (path : String) :
    DaemonReply :=
  if !(checkAuth authToken headerToken) then
    DaemonReply.errorJson 401 "认证失败：X-Agent-Token 无效。"
  else
    match routePost path with
    | PostRoute.notFound p => DaemonReply.errorJson 404 ("未找到路径：" ++ p)
    | r => DaemonReply.handled r

/-- The behavior claimed for _call_with_retry (claim C5 as amended),
written as an explicit decision tree over the three attempts instead of
the source's loop: a non-rate-limit exception re-raises immediately with no
events; a rate-limit exception has its delay extracted from the regex
(clamped to at most 60, defaulting to 10 on no match) unless the captured
group is not a valid float literal, in which case a ValueError propagates
with no retry; attempts 1 and 2 emit rate_limit_retry with the attempt
number and sleep the delay before retrying; a rate-limit failure on
attempt 3 emits rate_limit_failed and re-raises. -/
def callWithRetrySpec (α : Type) (f : Nat → CallOutcome α) : RetryRun α :=
  match f 1 with
  | CallOutcome.ok v => ⟨RetryResult.ok v, [], [], 1⟩
  | CallOutcome.raise m1 =>
    if isRateLimitError m1 then
      match computeRetryDelay m1 with
      | Except.error g1 => ⟨RetryResult.valueError g1, [], [], 1⟩
      | Except.ok d1 =>
        match f 2 with
        | CallOutcome.ok v =>
          ⟨RetryResult.ok v, [RetryEvent.rateLimitRetry 1 d1], [d1], 2⟩
        | CallOutcome.raise m2 =>
          if isRateLimitError m2 then
            match computeRetryDelay m2 with
            | Except.error g2 =>
              ⟨RetryResult.valueError g2, [RetryEvent.rateLimitRetry 1 d1], [d1], 2⟩
            | Except.ok d2 =>
              match f 3 with
              | CallOutcome.ok v =>
                ⟨RetryResult.ok v,
                 [RetryEvent.rateLimitRetry 1 d1, RetryEvent.rateLimitRetry 2 d2],
                 [d1, d2], 3⟩
              | CallOutcome.raise m3 =>
                if isRateLimitError m3 then
                  match computeRetryDelay m3 with
                  | Except.error g3 =>
                    ⟨RetryResult.valueError g3,
                     [RetryEvent.rateLimitRetry 1 d1, RetryEvent.rateLimitRetry 2 d2],
                     [d1, d2], 3⟩
                  | Except.ok _ =>
                    ⟨RetryResult.raised m3,
                     [RetryEvent.rateLimitRetry 1 d1, RetryEvent.rateLimitRetry 2 d2,
                      RetryEvent.rateLimitFailed MAX_RETRIES],
                     [d1, d2], 3⟩
                else
                  ⟨RetryResult.raised m3,
                   [RetryEvent.rateLimitRetry 1 d1, RetryEvent.rateLimitRetry 2 d2],
                   [d1, d2], 3⟩
          else ⟨RetryResult.raised m2, [RetryEvent.rateLimitRetry 1 d1], [d1], 2⟩
    else ⟨RetryResult.raised m1, [], [], 1⟩

/-- A rate-limit message whose regex capture is not a valid float. -/
def c5BadMessage : String := "429 Too Many Requests: retry in ..5s"

/-- A request that raises the bad rate-limit message once, then succeeds. -/
def c5Calls : Nat → CallOutcome Nat :=
  fun attempt => if attempt = 1 then CallOutcome.raise c5BadMessage else CallOutcome.ok 42

/-- A tool executor that always returns the same string (used to
instantiate the loop at concrete inputs). -/
def execConst : String → List (String × JVal) → String := fun _ _ => "r"

/-- A family of pairwise-distinct tool calls (distinct int argument). -/
def distinctCall (i : Nat) : FCall :=
  ⟨"t", [("i", JVal.int (Int.ofNat i))], "", none⟩

/-- The first n distinct tool calls. -/
def distinctCalls (n : Nat) : List FCall := (List.range n).map distinctCall

/-- A script whose single tool-bearing response carries 16 distinct calls. -/
def capScript16 : List ModelResponse := [⟨"", distinctCalls 16⟩, ⟨"done", []⟩]

/-- A script whose single response carries 61 distinct calls. -/
def capScript61 : List ModelResponse := [⟨"", distinctCalls 61⟩]

/-- A single-call-per-response script for the claim C2 witness. -/
def capScriptSingles : List ModelResponse := [⟨"", [distinctCall 0]⟩, ⟨"ok", []⟩]

/-- A loop state sitting right after an execution of the call t with empty
arguments: its signature is the last signature and its result is cached. -/
def dedupReadyState : LoopState :=
  ⟨[], 3, 7, [(buildToolSignature "t" [], "cached")],
   some (buildToolSignature "t" []), [], []⟩

/-- A loop state with no previous signature. -/
def freshSigState : LoopState := ⟨[], 3, 7, [], none, [], []⟩

/-- The call t with empty arguments. -/
def plainCall : FCall := ⟨"t", [], "", none⟩

/-- A concrete tool table for the claim C8 witness: one tool that raises. -/
def c8Tools : String → Option (List (String × JVal) → ToolOutcome) :=
  fun name =>
    if name = "boom" then some (fun _ => ToolOutcome.raises "RuntimeError" "x")
    else none

/-- A concrete failing turn execution for the claim C3 witness. -/
def failingExec : TurnExec :=
  ⟨[⟨"assistant", "", none, []⟩, ⟨"tool", "r", some "call_1", []⟩],
   Except.error ⟨"RuntimeError", "boom"⟩⟩

/-! # Theorems -/

/-! ## Claim C1 -/

/-- Claim C1 (code_bug evidence): the claim says POST /shutdown answers 200
with body {} and then gracefully stops the server, but do_POST has no
/shutdown route: the request (with or without a configured token, here with
the correct token supplied) falls through to the 404 tail with an error
body, and nothing is dispatched, so the server keeps running. -/
theorem shutdown_post_falls_through_to_404 :
    routePost "/shutdown" = PostRoute.notFound "/shutdown" ∧
    doPost (some "secret") "secret" "/shutdown" =
      DaemonReply.errorJson 404 "未找到路径：/shutdown" ∧
    doPost none "" "/shutdown" =
      DaemonReply.errorJson 404 "未找到路径：/shutdown" := by
  decide

/-! ## Claim C9 -/

/-- Draining a sentinel-free queue of pending requests drops them all. -/
theorem dropPendingTurns_map_some (reqs : List TurnReq) :
    dropPendingTurns (reqs.map Option.some) = (reqs.length, []) := by
  induction reqs with
  | nil => rfl
  | cons r rest ih => simp [dropPendingTurns, ih]

/-- Claim C9: clear on a busy session returns the in-flight rejection and
leaves history unchanged and emits nothing, yet the pending queue has
already been drained (all queued requests are lost). -/
theorem clear_busy_rejects_after_draining (history : List KimiMsg)
    (reqs : List TurnReq) (busy : Bool) (hb : busy = true) :
    clearSession history (reqs.map Option.some) busy =
      ⟨false, "当前有请求正在执行，暂不允许清空。", history, [], []⟩ ∧
    (dropPendingTurns (reqs.map Option.some)).1 = reqs.length := by
  subst hb
  refine ⟨?_, ?_⟩
  · simp [clearSession, dropPendingTurns_map_some]
  · simp [dropPendingTurns_map_some]

/-- Witness for claim C9 at a concrete busy session with two pending turns. -/
theorem clear_busy_rejects_after_draining_witness :
    clearSession [⟨"user", "hi", none, []⟩]
        ([⟨1, "a"⟩, ⟨2, "b"⟩].map Option.some) true =
      ⟨false, "当前有请求正在执行，暂不允许清空。",
       [⟨"user", "hi", none, []⟩], [], []⟩ ∧
    (dropPendingTurns ([(⟨1, "a"⟩ : TurnReq), ⟨2, "b"⟩].map Option.some)).1 = 2 :=
  clear_busy_rejects_after_draining [⟨"user", "hi", none, []⟩]
    [⟨1, "a"⟩, ⟨2, "b"⟩] true rfl

/-! ## Claim C7 -/

set_option maxRecDepth 4000 in
/-- Claim C7 counterexample: the claim says the width of the returned range
never exceeds 200 lines, but on a 250-line file the request for lines 1-250
is clamped to end = start + 200 and the inclusive slice then returns 201
lines. -/
theorem read_range_201_lines_counterexample :
    (readFileRange (List.replicate 250 "x") 1 250).length = 201 ∧
    200 < (readFileRange (List.replicate 250 "x") 1 250).length := by
  decide

/-- Claim C7 (amended): the clamped range is 1-based with start ≥ 1 and
end ≥ start, the difference end - start is capped at 200, the returned
slice therefore holds at most 201 lines (not 200), and it is exactly the
1-based inclusive slice of the file. -/
theorem read_range_clamps (lines : List String) (startLine endLine : Int) :
    1 ≤ (clampReadRange startLine endLine).1 ∧
    (clampReadRange startLine endLine).1 ≤ (clampReadRange startLine endLine).2 ∧
    (clampReadRange startLine endLine).2 - (clampReadRange startLine endLine).1 ≤ 200 ∧
    (readFileRange lines startLine endLine).length ≤ 201 ∧
    (∀ i : Nat, (readFileRange lines startLine endLine)[i]? =
      if i < (clampReadRange startLine endLine).2 + 1 - (clampReadRange startLine endLine).1
      then lines[(clampReadRange startLine endLine).1 - 1 + i]?
      else none) := by
  have h1 : (clampReadRange startLine endLine).1 = (max 1 startLine).toNat := by
    simp [clampReadRange]
  have h2 : (clampReadRange startLine endLine).2 =
      (if 200 < max (max 1 startLine) endLine - max 1 startLine
       then max 1 startLine + 200
       else max (max 1 startLine) endLine).toNat := by
    simp [clampReadRange]
  have hA : 1 ≤ (clampReadRange startLine endLine).1 := by rw [h1]; omega
  have hB : (clampReadRange startLine endLine).1 ≤ (clampReadRange startLine endLine).2 := by
    rw [h1, h2]; split <;> omega
  have hC : (clampReadRange startLine endLine).2 - (clampReadRange startLine endLine).1 ≤ 200 := by
    rw [h1, h2]; split <;> omega
  have hrange : readFileRange lines startLine endLine =
      (lines.drop ((clampReadRange startLine endLine).1 - 1)).take
        ((clampReadRange startLine endLine).2 + 1 - (clampReadRange startLine endLine).1) := by
    simp [readFileRange, selectLines]
  refine ⟨hA, hB, hC, ?_, ?_⟩
  · rw [hrange]
    have := List.length_take
      ((clampReadRange startLine endLine).2 + 1 - (clampReadRange startLine endLine).1)
      (lines.drop ((clampReadRange startLine endLine).1 - 1))
    omega
  · intro i
    rw [hrange]
    rcases Nat.lt_or_ge i
        ((clampReadRange startLine endLine).2 + 1 - (clampReadRange startLine endLine).1)
      with hi | hi
    · rw [if_pos hi, List.getElem?_take_of_lt hi, List.getElem?_drop]
    · rw [if_neg (by omega)]
      refine List.getElem?_eq_none ?_
      have := List.length_take
        ((clampReadRange startLine endLine).2 + 1 - (clampReadRange startLine endLine).1)
        (lines.drop ((clampReadRange startLine endLine).1 - 1))
      omega

/-! ## Claim C8 -/

/-- Claim C8: a path whose canonicalization escapes the canonical project
root makes read_file and list_dir return the path-safety diagnostic, and
the result does not depend on the filesystem contents (nothing is read);
and the loop's tool dispatch always returns a string: unknown tools give
the unknown-tool diagnostic and a raising tool is caught and formatted as
the 工具执行出错 string, so no exception propagates out of _execute_tool. -/
theorem path_escape_refused_and_dispatch_total
    (fs1 fs2 : FsNode) (root : List String) (path : String) (s e : Int)
    (hesc : isUnder root (resolveUnderRoot root path) = false) :
    readFile fs1 root path s e = "错误：路径不安全或不在项目目录内：" ++ path ∧
    readFile fs1 root path s e = readFile fs2 root path s e ∧
    listDir fs1 root path = "错误：路径不安全或不在项目目录内：" ++ path ∧
    (∀ (tools : String → Option (List (String × JVal) → ToolOutcome))
        (name : String) (args : List (String × JVal)),
      tools name = none →
        executeTool tools name args = "错误：未知的工具函数 " ++ "\x27" ++ name ++ "\x27") ∧
    (∀ (tools : String → Option (List (String × JVal) → ToolOutcome))
        (name : String) (args : List (String × JVal)) (f : List (String × JVal) → ToolOutcome)
        (k m : String),
      tools name = some f → f args = ToolOutcome.raises k m →
        executeTool tools name args = "工具执行出错：" ++ k ++ ": " ++ m) := by
  have hres : safeResolve root path = none := by
    simp [safeResolve, hesc]
  refine ⟨?_, ?_, ?_, ?_, ?_⟩
  · simp [readFile, hres]
  · simp [readFile, hres]
  · simp [listDir, hres]
  · intro tools name args hnone
    simp [executeTool, hnone]
  · intro tools name args f k m hsome hraises
    simp [executeTool, hsome, hraises]

/-- Witness for claim C8: ../secret canonicalizes outside the root
["repo"], both tools refuse it identically on two different filesystems,
and the dispatch formats an unknown tool and a raising tool as strings. -/
theorem path_escape_refused_and_dispatch_total_witness :
    readFile (FsNode.dir []) ["repo"] "../secret" 1 120 =
      "错误：路径不安全或不在项目目录内：../secret" ∧
    readFile (FsNode.dir []) ["repo"] "../secret" 1 120 =
      readFile (FsNode.file ["top secret"] true) ["repo"] "../secret" 1 120 ∧
    listDir (FsNode.dir []) ["repo"] "../secret" =
      "错误：路径不安全或不在项目目录内：../secret" ∧
    executeTool c8Tools "nope" [] = "错误：未知的工具函数 " ++ "\x27" ++ "nope" ++ "\x27" ∧
    executeTool c8Tools "boom" [] = "工具执行出错：RuntimeError: x" := by
  have h := path_escape_refused_and_dispatch_total
    (FsNode.dir []) (FsNode.file ["top secret"] true) ["repo"] "../secret" 1 120
    (by decide)
  refine ⟨h.1, h.2.1, h.2.2.1, ?_, ?_⟩
  · exact h.2.2.2.1 c8Tools "nope" [] rfl
  · exact h.2.2.2.2 c8Tools "boom" [] (fun _ => ToolOutcome.raises "RuntimeError" "x")
      "RuntimeError" "x" rfl rfl

/-! ## Claim C5 -/

/-- Claim C5 counterexample: the claim says any exception whose string
contains 429 leads to a delay extraction, a rate_limit_retry event and a
retry; but on this message the regex captures ..5, float() raises
ValueError, and the helper neither emits any event nor retries (the second
attempt would have succeeded with 42). -/
theorem retry_bad_float_group_counterexample :
    isRateLimitError c5BadMessage = true ∧
    reSearchRetryGroup c5BadMessage.toList = some ['.', '.', '5'] ∧
    callWithRetry Nat c5Calls =
      ⟨RetryResult.valueError "..5", [], [], 1⟩ ∧
    (callWithRetry Nat c5Calls).result ≠ RetryResult.ok 42 := by
  refine ⟨by decide, by decide, by decide, by decide⟩

/-- Claim C5 (amended): _call_with_retry behaves exactly as the unrolled
three-attempt decision tree callWithRetrySpec: immediate re-raise on
non-rate-limit errors, regex-extracted delay clamped to 60 (default 10),
rate_limit_retry with the attempt number then sleep then retry on attempts
1 and 2, rate_limit_failed plus re-raise on rate-limit exhaustion at
attempt 3 — except that an unparseable captured group raises ValueError
instead of retrying. -/
theorem call_with_retry_matches_spec (α : Type) (f : Nat → CallOutcome α) :
    callWithRetry α f = callWithRetrySpec α f := by
  unfold callWithRetry callWithRetrySpec MAX_RETRIES
  cases h1 : f 1 with
  | ok v => simp [callWithRetryGo, h1]
  | raise m1 =>
    cases hr1 : isRateLimitError m1 with
    | false => simp [callWithRetryGo, h1, hr1]
    | true =>
      cases hd1 : computeRetryDelay m1 with
      | error g1 => simp [callWithRetryGo, h1, hr1, hd1]
      | ok d1 =>
        cases h2 : f 2 with
        | ok v => simp [callWithRetryGo, h1, hr1, hd1, h2, MAX_RETRIES]
        | raise m2 =>
          cases hr2 : isRateLimitError m2 with
          | false => simp [callWithRetryGo, h1, hr1, hd1, h2, hr2, MAX_RETRIES]
          | true =>
            cases hd2 : computeRetryDelay m2 with
            | error g2 => simp [callWithRetryGo, h1, hr1, hd1, h2, hr2, hd2, MAX_RETRIES]
            | ok d2 =>
              cases h3 : f 3 with
              | ok v => simp [callWithRetryGo, h1, hr1, hd1, h2, hr2, hd2, h3, MAX_RETRIES]
              | raise m3 =>
                cases hr3 : isRateLimitError m3 with
                | false =>
                  simp [callWithRetryGo, h1, hr1, hd1, h2, hr2, hd2, h3, hr3, MAX_RETRIES]
                | true =>
                  cases hd3 : computeRetryDelay m3 with
                  | error g3 =>
                    simp [callWithRetryGo, h1, hr1, hd1, h2, hr2, hd2, h3, hr3, hd3,
                      MAX_RETRIES]
                  | ok d3 =>
                    simp [callWithRetryGo, h1, hr1, hd1, h2, hr2, hd2, h3, hr3, hd3,
                      MAX_RETRIES]

/-! ## Claim C6 -/

/-- Dropping from an arithmetic range shifts its start. -/
theorem range'_drop (d : Nat) : ∀ (c s : Nat),
    (List.range' s c).drop d = List.range' (s + d) (c - d) := by
  induction d with
  | zero => intro c s; simp
  | succ d ih =>
    intro c s
    cases c with
    | zero => simp
    | succ c =>
      rw [List.range'_succ, List.drop_succ_cons, ih c (s + 1)]
      congr 1 <;> omega

/-- Taking from an arithmetic range truncates its length. -/
theorem range'_take (k : Nat) : ∀ (c s : Nat),
    (List.range' s c).take k = List.range' s (min k c) := by
  induction k with
  | zero => intro c s; simp
  | succ k ih =>
    intro c s
    cases c with
    | zero => simp
    | succ c =>
      rw [List.range'_succ, List.take_succ_cons, ih c (s + 1)]
      have e1 : min (k + 1) (c + 1) = min k c + 1 := by omega
      rw [e1, List.range'_succ]

/-- Filtering an arithmetic range by a strict lower bound is a subrange. -/
theorem range'_filter_lt (a c : Nat) : ∀ (s : Nat),
    (List.range' s c).filter (fun i => decide (a < i)) =
      List.range' (max s (a + 1)) (c - (a + 1 - s)) := by
  induction c with
  | zero => intro s; simp
  | succ c ih =>
    intro s
    rw [List.range'_succ, List.filter_cons]
    rcases Nat.lt_or_ge a s with hs | hs
    · rw [if_pos (by simpa using hs), ih (s + 1)]
      have e1 : max (s + 1) (a + 1) = s + 1 := by omega
      have e2 : c - (a + 1 - (s + 1)) = c := by omega
      have e3 : max s (a + 1) = s := by omega
      have e4 : c + 1 - (a + 1 - s) = c + 1 := by omega
      rw [e1, e2, e3, e4, List.range'_succ]
    · rw [if_neg (by simpa using hs), ih (s + 1)]
      have e1 : max (s + 1) (a + 1) = a + 1 := by omega
      have e2 : c - (a + 1 - (s + 1)) = c + 1 - (a + 1 - s) := by omega
      have e3 : max s (a + 1) = a + 1 := by omega
      rw [e1, e2, e3]

/-- The four fields of a get_events response, read off the definition. -/
theorem getEvents_fields (buf : EventBuffer) (a l : Nat) :
    (getEvents buf a l).lastEventId = buf.lastEventId ∧
    (getEvents buf a l).oldestEventId =
      (match buf.events.head? with
       | some e => e.eventId
       | none => buf.lastEventId + 1) ∧
    (getEvents buf a l).droppedEvents =
      max 0 (((getEvents buf a l).oldestEventId : Int) - (a : Int) - 1) ∧
    (getEvents buf a l).events =
      (if 0 < l then (buf.events.filter (fun e => a < e.eventId)).take l
       else buf.events.filter (fun e => a < e.eventId)) :=
  ⟨rfl, rfl, rfl, rfl⟩

/-- The buffer after n appends to a fresh session: last_event_id is n and
the retained events are exactly the trailing window of the event-id range,
of length min n maxEvents. -/
theorem buildBuffer_spec (maxE : Nat) (hmax : 1 ≤ maxE) : ∀ n : Nat,
    (buildBuffer maxE n).maxEvents = maxE ∧
    (buildBuffer maxE n).lastEventId = n ∧
    (buildBuffer maxE n).events =
      (List.range' (max 1 (n + 1 - maxE)) (n + 1 - max 1 (n + 1 - maxE))).map
        (fun i => BufEvent.mk i "e") := by
  intro n
  induction n with
  | zero =>
    refine ⟨rfl, rfl, ?_⟩
    have e1 : 0 + 1 - maxE = 0 := by omega
    rw [e1]
    simp [buildBuffer, emptyBuffer]
  | succ n ih =>
    obtain ⟨ihm, ihl, ihe⟩ := ih
    refine ⟨ihm, by simp [buildBuffer, appendEvent, ihl], ?_⟩
    show (appendEvent (buildBuffer maxE n) "e").events = _
    rw [appendEvent, ihm, ihl, ihe]
    have hlen : ((List.range' (max 1 (n + 1 - maxE)) (n + 1 - max 1 (n + 1 - maxE))).map
        (fun i => BufEvent.mk i "e") ++ [BufEvent.mk (n + 1) "e"]).length =
        (n + 1 - max 1 (n + 1 - maxE)) + 1 := by
      simp
    rw [hlen]
    have hcat : (List.range' (max 1 (n + 1 - maxE)) (n + 1 - max 1 (n + 1 - maxE))).map
        (fun i => BufEvent.mk i "e") ++ [BufEvent.mk (n + 1) "e"] =
        (List.range' (max 1 (n + 1 - maxE)) ((n + 1 - max 1 (n + 1 - maxE)) + 1)).map
          (fun i => BufEvent.mk i "e") := by
      rw [List.range'_1_concat, List.map_append]
      have e1 : max 1 (n + 1 - maxE) + (n + 1 - max 1 (n + 1 - maxE)) = n + 1 := by omega
      rw [e1]
      rfl
    rw [hcat, ← List.map_drop, range'_drop]
    have e1 : max 1 (n + 1 - maxE) + ((n + 1 - max 1 (n + 1 - maxE)) + 1 - maxE) =
        max 1 (n + 1 + 1 - maxE) := by omega
    have e2 : (n + 1 - max 1 (n + 1 - maxE)) + 1 -
          ((n + 1 - max 1 (n + 1 - maxE)) + 1 - maxE) =
        n + 1 + 1 - max 1 (n + 1 + 1 - maxE) := by omega
    rw [e1, e2]

/-- Claim C6: on the buffer reached by n appends to a fresh session, the
buffer retains exactly the trailing min n maxEvents window of events; a
get_events(after, _, limit) read returns exactly the buffered events with
event_id > after truncated to limit, and reports last_event_id,
oldest_event_id and dropped_events = max(0, oldest - after - 1); once
n exceeds maxEvents the buffer length is exactly maxEvents and a client
reading from after = 0 is told dropped_events = last_event_id - maxEvents. -/
theorem event_buffer_window (maxE n after limit : Nat)
    (hmax : 1 ≤ maxE) (hlim : 1 ≤ limit) :
    (buildBuffer maxE n).events =
      (List.range' (max 1 (n + 1 - maxE)) (n + 1 - max 1 (n + 1 - maxE))).map
        (fun i => BufEvent.mk i "e") ∧
    (getEvents (buildBuffer maxE n) after limit).events =
      (List.range' (max (after + 1) (max 1 (n + 1 - maxE)))
          (min limit (n + 1 - max (after + 1) (max 1 (n + 1 - maxE))))).map
        (fun i => BufEvent.mk i "e") ∧
    (getEvents (buildBuffer maxE n) after limit).lastEventId = n ∧
    (getEvents (buildBuffer maxE n) after limit).oldestEventId =
      max 1 (n + 1 - maxE) ∧
    (getEvents (buildBuffer maxE n) after limit).droppedEvents =
      max 0 (((max 1 (n + 1 - maxE) : Nat) : Int) - (after : Int) - 1) ∧
    (maxE < n →
      (buildBuffer maxE n).events.length = maxE ∧
      (getEvents (buildBuffer maxE n) 0 limit).droppedEvents =
        (n : Int) - (maxE : Int)) := by
  obtain ⟨hm, hl, he⟩ := buildBuffer_spec maxE hmax n
  have hoard : ∀ a l, (getEvents (buildBuffer maxE n) a l).oldestEventId =
      max 1 (n + 1 - maxE) := by
    intro a l
    rw [(getEvents_fields (buildBuffer maxE n) a l).2.1, he, hl]
    cases n with
    | zero =>
      have e1 : 0 + 1 - maxE = 0 := by omega
      simp [e1]
    | succ n =>
      obtain ⟨c, hc⟩ : ∃ c, n + 1 + 1 - max 1 (n + 1 + 1 - maxE) = c + 1 :=
        ⟨n + 1 + 1 - max 1 (n + 1 + 1 - maxE) - 1, by omega⟩
      rw [hc, List.range'_succ]
      rfl
  have hdrop : ∀ a l, (getEvents (buildBuffer maxE n) a l).droppedEvents =
      max 0 (((max 1 (n + 1 - maxE) : Nat) : Int) - (a : Int) - 1) := by
    intro a l
    rw [(getEvents_fields (buildBuffer maxE n) a l).2.2.1, hoard a l]
  refine ⟨he, ?_, by rw [(getEvents_fields (buildBuffer maxE n) after limit).1, hl],
    hoard after limit, hdrop after limit, ?_⟩
  · rw [(getEvents_fields (buildBuffer maxE n) after limit).2.2.2, he,
      if_pos (by omega : 0 < limit), List.filter_map]
    have hcomp : ((fun e => decide (after < e.eventId)) ∘
        (fun i : Nat => BufEvent.mk i "e")) = (fun i : Nat => decide (after < i)) := rfl
    rw [hcomp, range'_filter_lt, ← List.map_take, range'_take]
    have e1 : max (max 1 (n + 1 - maxE)) (after + 1) =
        max (after + 1) (max 1 (n + 1 - maxE)) := by omega
    have e2 : min limit ((n + 1 - max 1 (n + 1 - maxE)) -
          (after + 1 - max 1 (n + 1 - maxE))) =
        min limit (n + 1 - max (after + 1) (max 1 (n + 1 - maxE))) := by omega
    rw [e1, e2]
  · intro hlt
    constructor
    · rw [he]
      simp only [List.length_map, List.length_range']
      omega
    · rw [hdrop 0 limit]
      have e1 : ((max 1 (n + 1 - maxE) : Nat) : Int) = (n : Int) + 1 - (maxE : Int) := by
        omega
      rw [e1]
      omega

/-- Witness for claim C6 at maxEvents 3, seven appends, after 1, limit 2. -/
theorem event_buffer_window_witness :
    (buildBuffer 3 7).events =
      (List.range' (max 1 (7 + 1 - 3)) (7 + 1 - max 1 (7 + 1 - 3))).map
        (fun i => BufEvent.mk i "e") ∧
    (getEvents (buildBuffer 3 7) 1 2).events =
      (List.range' (max (1 + 1) (max 1 (7 + 1 - 3)))
          (min 2 (7 + 1 - max (1 + 1) (max 1 (7 + 1 - 3))))).map
        (fun i => BufEvent.mk i "e") ∧
    (getEvents (buildBuffer 3 7) 1 2).lastEventId = 7 ∧
    (getEvents (buildBuffer 3 7) 1 2).oldestEventId = max 1 (7 + 1 - 3) ∧
    (getEvents (buildBuffer 3 7) 1 2).droppedEvents =
      max 0 (((max 1 (7 + 1 - 3) : Nat) : Int) - ((1 : Nat) : Int) - 1) ∧
    (3 < 7 →
      (buildBuffer 3 7).events.length = 3 ∧
      (getEvents (buildBuffer 3 7) 0 2).droppedEvents = ((7 : Nat) : Int) - ((3 : Nat) : Int)) :=
  event_buffer_window 3 7 1 2 (by decide) (by decide)

/-! ## Claim C4 -/

/-- Emitting an event only appends it to the event record (the handler
call's result is discarded). -/
theorem emitLoop_events (ε : Type) (handler : Option (LoopEvent → Except ε Unit))
    (st : LoopState) (ev : LoopEvent) :
    emitLoop ε handler st ev = { st with events := st.events ++ [ev] } := rfl

/-- Claim C4: a call whose signature equals the immediately preceding one
and is cached from that prior execution reuses the cached result string,
emits tool_deduplicated, leaves the effective-call counter and the cache
unchanged, and increments the raw-call counter; a call whose signature
differs from the immediately preceding one always executes: the effective
counter increments, the result is the executor's, the cache gains the
signature, and no tool_deduplicated event is emitted. -/
theorem dedup_reuse_and_fresh_signature_executes
    (ε : Type) (handler : Option (LoopEvent → Except ε Unit))
    (exec : String → List (String × JVal) → String)
    (st : LoopState) (fc : FCall) :
    (∀ r : String,
      st.lastToolSignature = some (buildToolSignature fc.name fc.args) →
      List.lookup (buildToolSignature fc.name fc.args) st.toolResultCache = some r →
      (processCall ε handler exec st fc).result = r ∧
      (processCall ε handler exec st fc).state.toolCallCount = st.toolCallCount ∧
      (processCall ε handler exec st fc).state.rawToolCallCount = st.rawToolCallCount + 1 ∧
      (processCall ε handler exec st fc).state.toolResultCache = st.toolResultCache ∧
      (processCall ε handler exec st fc).state.events =
        st.events ++
          [LoopEvent.toolCall (st.rawToolCallCount + 1) fc.name fc.args,
           LoopEvent.toolDeduplicated fc.name fc.args,
           LoopEvent.toolResult fc.name (resultPreview r)]) ∧
    (st.lastToolSignature ≠ some (buildToolSignature fc.name fc.args) →
      (processCall ε handler exec st fc).result = exec fc.name fc.args ∧
      (processCall ε handler exec st fc).state.toolCallCount = st.toolCallCount + 1 ∧
      (processCall ε handler exec st fc).state.rawToolCallCount = st.rawToolCallCount + 1 ∧
      (processCall ε handler exec st fc).state.toolResultCache =
        (buildToolSignature fc.name fc.args, exec fc.name fc.args) :: st.toolResultCache ∧
      (processCall ε handler exec st fc).state.events =
        st.events ++
          [LoopEvent.toolCall (st.rawToolCallCount + 1) fc.name fc.args,
           LoopEvent.toolResult fc.name (resultPreview (exec fc.name fc.args))]) := by
  constructor
  · intro r hlast hcache
    have hb : (st.lastToolSignature == some (buildToolSignature fc.name fc.args)) = true := by
      rw [hlast]; exact beq_self_eq_true _
    simp [processCall, emitLoop_events, hb, hcache]
  · intro hne
    have hb : (st.lastToolSignature == some (buildToolSignature fc.name fc.args)) = false :=
      beq_eq_false_iff_ne.mpr hne
    simp [processCall, emitLoop_events, hb]

/-- Witness for claim C4: in a state whose previous call was t with empty
args (result cached), the same call again is served from the cache without
incrementing the effective counter; in a state with no previous signature
the same call executes. -/
theorem dedup_reuse_and_fresh_signature_executes_witness :
    (processCall Unit none execConst dedupReadyState plainCall).result = "cached" ∧
    (processCall Unit none execConst dedupReadyState plainCall).state.toolCallCount = 3 ∧
    (processCall Unit none execConst dedupReadyState plainCall).state.rawToolCallCount = 8 ∧
    (processCall Unit none execConst dedupReadyState plainCall).state.toolResultCache =
      dedupReadyState.toolResultCache ∧
    (processCall Unit none execConst freshSigState plainCall).result = "r" ∧
    (processCall Unit none execConst freshSigState plainCall).state.toolCallCount = 4 := by
  have h1 := (dedup_reuse_and_fresh_signature_executes Unit none execConst
    dedupReadyState plainCall).1 "cached" rfl (by decide)
  have h2 := (dedup_reuse_and_fresh_signature_executes Unit none execConst
    freshSigState plainCall).2 (by decide)
  exact ⟨h1.1, h1.2.1, h1.2.2.1, h1.2.2.2.1, h2.1, h2.2.1⟩

/-! ## Claim C2 -/

/-- Per-call counter facts: the raw counter always increments by one, the
effective counter by at most one, exactly one tool_call event is emitted,
and the history is untouched. -/
theorem processCall_counts (ε : Type) (handler : Option (LoopEvent → Except ε Unit))
    (exec : String → List (String × JVal) → String)
    (st : LoopState) (fc : FCall) :
    (processCall ε handler exec st fc).state.rawToolCallCount = st.rawToolCallCount + 1 ∧
    st.toolCallCount ≤ (processCall ε handler exec st fc).state.toolCallCount ∧
    (processCall ε handler exec st fc).state.toolCallCount ≤ st.toolCallCount + 1 ∧
    (processCall ε handler exec st fc).state.events.countP isToolCallEvent =
      st.events.countP isToolCallEvent + 1 ∧
    (processCall ε handler exec st fc).state.history = st.history := by
  by_cases hb : ((st.lastToolSignature == some (buildToolSignature fc.name fc.args)) &&
      (List.lookup (buildToolSignature fc.name fc.args) st.toolResultCache).isSome) = true
  · simp [processCall, emitLoop_events, hb, List.countP_append, List.countP_cons,
      isToolCallEvent]
  · rw [Bool.not_eq_true] at hb
    simp [processCall, emitLoop_events, hb, List.countP_append, List.countP_cons,
      isToolCallEvent]

/-- Batch counter facts, by induction over the calls of one response. -/
theorem processBatchGo_counts (ε : Type) (handler : Option (LoopEvent → Except ε Unit))
    (exec : String → List (String × JVal) → String) :
    ∀ (calls : List FCall) (st : LoopState) (acc : List (FCall × String)),
    (processBatchGo ε handler exec st acc calls).state.rawToolCallCount =
      st.rawToolCallCount + calls.length ∧
    st.toolCallCount ≤ (processBatchGo ε handler exec st acc calls).state.toolCallCount ∧
    (processBatchGo ε handler exec st acc calls).state.toolCallCount ≤
      st.toolCallCount + calls.length ∧
    (processBatchGo ε handler exec st acc calls).state.events.countP isToolCallEvent =
      st.events.countP isToolCallEvent + calls.length ∧
    (processBatchGo ε handler exec st acc calls).state.history = st.history := by
  intro calls
  induction calls with
  | nil => intro st acc; simp [processBatchGo]
  | cons fc rest ih =>
    intro st acc
    obtain ⟨r1, r2, r3, r4, r5⟩ := processCall_counts ε handler exec st fc
    obtain ⟨i1, i2, i3, i4, i5⟩ := ih (processCall ε handler exec st fc).state
      (acc ++ [((processCall ε handler exec st fc).call,
                (processCall ε handler exec st fc).result)])
    refine ⟨?_, ?_, ?_, ?_, ?_⟩
    · show (processBatchGo ε handler exec (processCall ε handler exec st fc).state _
        rest).state.rawToolCallCount = _
      rw [i1, r1]; simp; omega
    · show st.toolCallCount ≤ (processBatchGo ε handler exec
        (processCall ε handler exec st fc).state _ rest).state.toolCallCount
      omega
    · show (processBatchGo ε handler exec (processCall ε handler exec st fc).state _
        rest).state.toolCallCount ≤ _
      simp only [List.length_cons]; omega
    · show (processBatchGo ε handler exec (processCall ε handler exec st fc).state _
        rest).state.events.countP isToolCallEvent = _
      rw [i4, r4]; simp; omega
    · show (processBatchGo ε handler exec (processCall ε handler exec st fc).state _
        rest).state.history = _
      rw [i5, r5]

/-- appendToolResults only extends the history. -/
theorem appendToolResults_fields (st : LoopState) (results : List (FCall × String)) :
    (appendToolResults st results).toolCallCount = st.toolCallCount ∧
    (appendToolResults st results).rawToolCallCount = st.rawToolCallCount ∧
    (appendToolResults st results).events = st.events :=
  ⟨rfl, rfl, rfl⟩

/-- Loop-level cap facts: entering an iteration with effective count at most
14 and raw count at most 59, the loop ends with effective count at most
14 + B and tool_call events at most 59 + B when every model response holds
at most B calls; the tool_call event count always equals the raw counter. -/
theorem agentTurnGo_caps (ε : Type) (handler : Option (LoopEvent → Except ε Unit))
    (exec : String → List (String × JVal) → String) (B : Nat) :
    ∀ (script : List ModelResponse) (st : LoopState),
    (∀ r ∈ script, r.calls.length ≤ B) →
    st.toolCallCount ≤ 14 →
    st.rawToolCallCount ≤ 59 →
    st.events.countP isToolCallEvent = st.rawToolCallCount →
    (agentTurnGo ε handler exec script st).state.toolCallCount ≤ 14 + B ∧
    (agentTurnGo ε handler exec script st).state.rawToolCallCount ≤ 59 + B ∧
    (agentTurnGo ε handler exec script st).state.events.countP isToolCallEvent =
      (agentTurnGo ε handler exec script st).state.rawToolCallCount := by
  intro script
  induction script with
  | nil =>
    intro st hscript hc hr hcp
    exact ⟨by simpa [agentTurnGo] using by omega,
      by simpa [agentTurnGo] using by omega, by simpa [agentTurnGo] using hcp⟩
  | cons r rest ih =>
    intro st hscript hc hr hcp
    have hlen : r.calls.length ≤ B := hscript r (List.mem_cons_self r rest)
    have hrest : ∀ q ∈ rest, q.calls.length ≤ B :=
      fun q hq => hscript q (List.mem_cons_of_mem r hq)
    rw [agentTurnGo]
    by_cases hempty : r.calls.isEmpty
    · simp only [hempty, if_true]
      exact ⟨by simpa using by omega, by simpa using by omega, by simpa using hcp⟩
    · simp only [hempty, if_false]
      have hblen : r.calls.length ≥ 1 := by
        cases hcalls : r.calls with
        | nil => rw [hcalls] at hempty; simp at hempty
        | cons a l => simp [hcalls]
      obtain ⟨b1, b2, b3, b4, b5⟩ := processBatchGo_counts ε handler exec r.calls
        { st with history := st.history ++ [assistantPayloadMsg r] } []
      set stb := (processBatchGo ε handler exec
        { st with history := st.history ++ [assistantPayloadMsg r] } [] r.calls).state
        with hstb
      have hb1 : stb.rawToolCallCount = st.rawToolCallCount + r.calls.length := b1
      have hb3 : stb.toolCallCount ≤ st.toolCallCount + r.calls.length := b3
      have hb4 : stb.events.countP isToolCallEvent = st.events.countP isToolCallEvent +
        r.calls.length := b4
      by_cases hcap : MAX_TOOL_CALLS_PER_TURN ≤
          (appendToolResults stb (processBatchGo ε handler exec
            { st with history := st.history ++ [assistantPayloadMsg r] } []
            r.calls).results).toolCallCount
      · simp only [processBatch, ← hstb, hcap, if_true]
        refine ⟨?_, ?_, ?_⟩
        · simp [emitLoop_events, appendToolResults]
          omega
        · simp [emitLoop_events, appendToolResults]
          omega
        · simp [emitLoop_events, appendToolResults, List.countP_append, List.countP_cons,
            isToolCallEvent]
          omega
      · by_cases hraw : MAX_RAW_TOOL_CALLS_PER_TURN ≤
            (appendToolResults stb (processBatchGo ε handler exec
              { st with history := st.history ++ [assistantPayloadMsg r] } []
              r.calls).results).rawToolCallCount
        · simp only [processBatch, ← hstb, hcap, hraw, if_true, if_false]
          refine ⟨?_, ?_, ?_⟩
          · simp only [appendToolResults] at hcap
            simp [emitLoop_events, appendToolResults]
            simp only [MAX_TOOL_CALLS_PER_TURN] at hcap
            omega
          · simp [emitLoop_events, appendToolResults]
            omega
          · simp [emitLoop_events, appendToolResults, List.countP_append, List.countP_cons,
              isToolCallEvent]
            omega
        · simp only [processBatch, ← hstb, hcap, hraw, if_false]
          refine ih (appendToolResults stb (processBatchGo ε handler exec
              { st with history := st.history ++ [assistantPayloadMsg r] } []
              r.calls).results) hrest ?_ ?_ ?_
          · simp only [appendToolResults] at hcap ⊢
            simp only [MAX_TOOL_CALLS_PER_TURN] at hcap
            omega
          · simp only [appendToolResults] at hraw ⊢
            simp only [MAX_RAW_TOOL_CALLS_PER_TURN] at hraw
            omega
          · simp only [appendToolResults]
            omega

set_option maxRecDepth 8000 in
/-- Claim C2 counterexample: the caps are only checked after a whole model
response is processed, so a single response carrying 16 distinct calls
yields 16 actual executions (the claim says at most 15), and a single
response carrying 61 distinct calls yields 61 tool_call events (the claim
says at most 60). -/
theorem caps_exceeded_by_large_batch_counterexample :
    (agentTurn Unit none execConst capScript16 [] "q").state.toolCallCount = 16 ∧
    MAX_TOOL_CALLS_PER_TURN <
      (agentTurn Unit none execConst capScript16 [] "q").state.toolCallCount ∧
    (agentTurn Unit none execConst capScript61 [] "q").state.events.countP
      isToolCallEvent = 61 ∧
    MAX_RAW_TOOL_CALLS_PER_TURN <
      (agentTurn Unit none execConst capScript61 [] "q").state.events.countP
        isToolCallEvent := by
  refine ⟨by decide, by decide, by decide, by decide⟩

/-- Claim C2 (amended): the caps are enforced between model responses, so
when every response of the turn carries at most B tool calls the turn
executes at most 14 + B tool calls and emits at most 59 + B tool_call
events; in particular the claimed limits of 15 and 60 hold exactly when
every model response carries at most one tool call. -/
theorem per_turn_caps_bounded_by_batch (ε : Type)
    (handler : Option (LoopEvent → Except ε Unit))
    (exec : String → List (String × JVal) → String)
    (script : List ModelResponse) (history : List KimiMsg) (input : String)
    (B : Nat) (hB : ∀ r ∈ script, r.calls.length ≤ B) :
    (agentTurn ε handler exec script history input).state.toolCallCount ≤ 14 + B ∧
    (agentTurn ε handler exec script history input).state.events.countP
      isToolCallEvent ≤ 59 + B ∧
    (B = 1 →
      (agentTurn ε handler exec script history input).state.toolCallCount ≤
        MAX_TOOL_CALLS_PER_TURN ∧
      (agentTurn ε handler exec script history input).state.events.countP
        isToolCallEvent ≤ MAX_RAW_TOOL_CALLS_PER_TURN) := by
  have h := agentTurnGo_caps ε handler exec B script
    { history := appendUserMessage history input, toolCallCount := 0,
      rawToolCallCount := 0, toolResultCache := [], lastToolSignature := none,
      toolResultPreviews := [], events := [] }
    hB (by simp) (by simp) (by simp)
  have hgoal : agentTurn ε handler exec script history input =
      agentTurnGo ε handler exec script
        { history := appendUserMessage history input, toolCallCount := 0,
          rawToolCallCount := 0, toolResultCache := [], lastToolSignature := none,
          toolResultPreviews := [], events := [] } := rfl
  rw [hgoal]
  refine ⟨h.1, ?_, ?_⟩
  · rw [h.2.2]; exact h.2.1
  · intro hB1
    subst hB1
    refine ⟨by simpa [MAX_TOOL_CALLS_PER_TURN] using h.1, ?_⟩
    rw [h.2.2]
    simpa [MAX_RAW_TOOL_CALLS_PER_TURN] using h.2.1

/-- Witness for claim C2 (amended) on a two-response script with at most
one call per response. -/
theorem per_turn_caps_bounded_by_batch_witness :
    (agentTurn Unit none execConst capScriptSingles [] "q").state.toolCallCount ≤ 14 + 1 ∧
    (agentTurn Unit none execConst capScriptSingles [] "q").state.events.countP
      isToolCallEvent ≤ 59 + 1 ∧
    (1 = 1 →
      (agentTurn Unit none execConst capScriptSingles [] "q").state.toolCallCount ≤
        MAX_TOOL_CALLS_PER_TURN ∧
      (agentTurn Unit none execConst capScriptSingles [] "q").state.events.countP
        isToolCallEvent ≤ MAX_RAW_TOOL_CALLS_PER_TURN) :=
  per_turn_caps_bounded_by_batch Unit none execConst capScriptSingles [] "q" 1
    (by decide)

/-! ## Claim C10 -/

/-- Per-call handler independence. -/
theorem processCall_handler_indep (ε : Type)
    (h1 h2 : Option (LoopEvent → Except ε Unit))
    (exec : String → List (String × JVal) → String) (st : LoopState) (fc : FCall) :
    processCall ε h1 exec st fc = processCall ε h2 exec st fc := rfl

/-- Per-batch handler independence. -/
theorem processBatchGo_handler_indep (ε : Type)
    (h1 h2 : Option (LoopEvent → Except ε Unit))
    (exec : String → List (String × JVal) → String) :
    ∀ (calls : List FCall) (st : LoopState) (acc : List (FCall × String)),
    processBatchGo ε h1 exec st acc calls = processBatchGo ε h2 exec st acc calls := by
  intro calls
  induction calls with
  | nil => intro st acc; rfl
  | cons fc rest ih =>
    intro st acc
    show processBatchGo ε h1 exec (processCall ε h1 exec st fc).state _ rest = _
    rw [processCall_handler_indep ε h1 h2]
    exact ih (processCall ε h2 exec st fc).state _

/-- Loop-level handler independence. -/
theorem agentTurnGo_handler_indep (ε : Type)
    (h1 h2 : Option (LoopEvent → Except ε Unit))
    (exec : String → List (String × JVal) → String) :
    ∀ (script : List ModelResponse) (st : LoopState),
    agentTurnGo ε h1 exec script st = agentTurnGo ε h2 exec script st := by
  intro script
  induction script with
  | nil => intro st; rfl
  | cons r rest ih =>
    intro st
    rw [agentTurnGo, agentTurnGo]
    by_cases hempty : r.calls.isEmpty
    · simp only [hempty, if_true]
    · simp only [hempty, if_false, processBatch,
        processBatchGo_handler_indep ε h1 h2 exec r.calls, emitLoop_events]
      rw [ih]

/-- Claim C10: _emit_event with a non-null handler catches and discards any
exception the handler raises (it always returns normally), and two runs of
agent_turn that differ only in the supplied event sink — including sinks
that raise — produce the same answer and the same final state (history
included). -/
theorem event_handler_exceptions_do_not_leak :
    (∀ (ε : Type) (h : LoopEvent → Except ε Unit) (ev : LoopEvent),
      emitEventE ε (some h) ev = Except.ok ()) ∧
    (∀ (ε : Type) (h1 h2 : Option (LoopEvent → Except ε Unit))
        (exec : String → List (String × JVal) → String)
        (script : List ModelResponse) (history : List KimiMsg) (input : String),
      agentTurn ε h1 exec script history input =
        agentTurn ε h2 exec script history input) := by
  constructor
  · intro ε h ev
    rw [emitEventE]
    cases h ev <;> rfl
  · intro ε h1 h2 exec script history input
    rw [agentTurn, agentTurn]
    exact agentTurnGo_handler_indep ε h1 h2 exec script _

/-! ## Claim C3 -/

/-- Everything agent_turn appends to the history after its entry state has
role assistant or tool: the assistant payloads, the tool-result messages
and the local cap answers.  This discharges, for the real loop, the
hypothesis of the rollback theorem below that the messages a turn appends
after its user message are never user-role. -/
theorem agentTurnGo_appends_roles (ε : Type)
    (handler : Option (LoopEvent → Except ε Unit))
    (exec : String → List (String × JVal) → String) :
    ∀ (script : List ModelResponse) (st : LoopState),
    ∃ rest : List KimiMsg,
      (agentTurnGo ε handler exec script st).state.history = st.history ++ rest ∧
      ∀ m ∈ rest, m.role = "assistant" ∨ m.role = "tool" := by
  intro script
  induction script with
  | nil => intro st; exact ⟨[], by simp [agentTurnGo], by simp⟩
  | cons r rest ih =>
    intro st
    rw [agentTurnGo]
    by_cases hempty : r.calls.isEmpty
    · refine ⟨[assistantPayloadMsg r], by simp [hempty], ?_⟩
      intro m hm
      rw [List.mem_singleton] at hm
      subst hm
      exact Or.inl rfl
    · rw [if_neg hempty]
      simp only [processBatch]
      have hbh := (processBatchGo_counts ε handler exec r.calls
        { st with history := st.history ++ [assistantPayloadMsg r] } []).2.2.2.2
      set bat := processBatchGo ε handler exec
        { st with history := st.history ++ [assistantPayloadMsg r] } [] r.calls with hbat
      set toolMsgs := bat.results.map (fun pr =>
        ({ role := "tool", content := pr.2, toolCallId := some (pr.1.callId.getD ""),
           toolCalls := [] } : KimiMsg)) with htm
      have htmr : ∀ m ∈ toolMsgs, m.role = "tool" := by
        intro m hm
        rw [htm, List.mem_map] at hm
        obtain ⟨pr, -, hpr⟩ := hm
        rw [← hpr]
      have happ : (appendToolResults bat.state bat.results).history =
          st.history ++ ([assistantPayloadMsg r] ++ toolMsgs) := by
        show bat.state.history ++ toolMsgs = _
        rw [hbh]
        simp
      by_cases hcap : MAX_TOOL_CALLS_PER_TURN ≤
          (appendToolResults bat.state bat.results).toolCallCount
      · rw [if_pos hcap]
        refine ⟨[assistantPayloadMsg r] ++ toolMsgs ++
          [{ role := "assistant",
             content := buildToolCapAnswer
               (emitLoop ε handler (appendToolResults bat.state bat.results)
                 (LoopEvent.warning ("已达到单轮最大有效工具调用次数 (" ++
                   toString MAX_TOOL_CALLS_PER_TURN ++ ")，强制结束。"))).toolCallCount
               MAX_TOOL_CALLS_PER_TURN
               (lastFive (emitLoop ε handler (appendToolResults bat.state bat.results)
                 (LoopEvent.warning ("已达到单轮最大有效工具调用次数 (" ++
                   toString MAX_TOOL_CALLS_PER_TURN ++ ")，强制结束。"))).toolResultPreviews)
               none none }], ?_, ?_⟩
        · show (emitLoop ε handler (appendToolResults bat.state bat.results) _).history ++ _ = _
          rw [emitLoop_events]
          show (appendToolResults bat.state bat.results).history ++ _ = _
          rw [happ]
          simp
        · intro m hm
          simp only [List.mem_append, List.mem_singleton] at hm
          rcases hm with (hm | hm) | hm
          · subst hm; exact Or.inl rfl
          · exact Or.inr (htmr m hm)
          · subst hm; exact Or.inl rfl
      · rw [if_neg hcap]
        by_cases hraw : MAX_RAW_TOOL_CALLS_PER_TURN ≤
            (appendToolResults bat.state bat.results).rawToolCallCount
        · rw [if_pos hraw]
          refine ⟨[assistantPayloadMsg r] ++ toolMsgs ++
            [{ role := "assistant",
               content := buildToolCapAnswer
                 (emitLoop ε handler (appendToolResults bat.state bat.results)
                   (LoopEvent.warning ("原始工具请求次数过多 (" ++
                     toString (appendToolResults bat.state bat.results).rawToolCallCount ++
                     "/" ++ toString MAX_RAW_TOOL_CALLS_PER_TURN ++
                     ")，疑似重复循环，强制结束。"))).toolCallCount
                 MAX_TOOL_CALLS_PER_TURN
                 (lastFive (emitLoop ε handler (appendToolResults bat.state bat.results)
                   (LoopEvent.warning ("原始工具请求次数过多 (" ++
                     toString (appendToolResults bat.state bat.results).rawToolCallCount ++
                     "/" ++ toString MAX_RAW_TOOL_CALLS_PER_TURN ++
                     ")，疑似重复循环，强制结束。"))).toolResultPreviews)
                 (some (emitLoop ε handler (appendToolResults bat.state bat.results)
                   (LoopEvent.warning ("原始工具请求次数过多 (" ++
                     toString (appendToolResults bat.state bat.results).rawToolCallCount ++
                     "/" ++ toString MAX_RAW_TOOL_CALLS_PER_TURN ++
                     ")，疑似重复循环，强制结束。"))).rawToolCallCount)
                 (some MAX_RAW_TOOL_CALLS_PER_TURN) }], ?_, ?_⟩
          · show (emitLoop ε handler (appendToolResults bat.state bat.results) _).history ++ _ = _
            rw [emitLoop_events]
            show (appendToolResults bat.state bat.results).history ++ _ = _
            rw [happ]
            simp
          · intro m hm
            simp only [List.mem_append, List.mem_singleton] at hm
            rcases hm with (hm | hm) | hm
            · subst hm; exact Or.inl rfl
            · exact Or.inr (htmr m hm)
            · subst hm; exact Or.inl rfl
        · rw [if_neg hraw]
          obtain ⟨tail, ht1, ht2⟩ := ih (appendToolResults bat.state bat.results)
          refine ⟨[assistantPayloadMsg r] ++ toolMsgs ++ tail, ?_, ?_⟩
          · rw [ht1, happ]
            simp
          · intro m hm
            simp only [List.mem_append, List.mem_singleton] at hm
            rcases hm with (hm | hm) | hm
            · subst hm; exact Or.inl rfl
            · exact Or.inr (htmr m hm)
            · exact ht2 m hm

/-- The corresponding fact for a whole agent_turn: the final history is the
entry history plus the user message plus messages that are never user-role. -/
theorem agentTurn_appends_roles (ε : Type)
    (handler : Option (LoopEvent → Except ε Unit))
    (exec : String → List (String × JVal) → String)
    (script : List ModelResponse) (history : List KimiMsg) (input : String) :
    ∃ rest : List KimiMsg,
      (agentTurn ε handler exec script history input).state.history =
        appendUserMessage history input ++ rest ∧
      ∀ m ∈ rest, m.role ≠ "user" := by
  obtain ⟨rest, h1, h2⟩ := agentTurnGo_appends_roles ε handler exec script
    { history := appendUserMessage history input, toolCallCount := 0,
      rawToolCallCount := 0, toolResultCache := [], lastToolSignature := none,
      toolResultPreviews := [], events := [] }
  refine ⟨rest, h1, ?_⟩
  intro m hm
  rcases h2 m hm with h | h <;> rw [h] <;> decide

/-- Claim C3: when the turn execution raises, the worker pops the trailing
history entry exactly when its role is user (that is, exactly when the
turn appended nothing after the user message, since the turn appends no
user-role messages), emits the error event <ExceptionKind>: <message>
followed by turn_finished failed, and afterwards the history either equals
the pre-turn history (user message rolled back) or ends in a non-user
message: the user message added for the turn is never the last element. -/
theorem failed_turn_rolls_back_user_message (history : List KimiMsg)
    (request : TurnReq) (t : TurnExec) (exc : PyExc)
    (hout : t.outcome = Except.error exc)
    (happ : ∀ m ∈ t.appended, m.role ≠ "user") :
    (runTurn history request t).history =
      (if t.appended.isEmpty then history
       else appendUserMessage history request.userInput ++ t.appended) ∧
    (runTurn history request t).emitted =
      [SessionEvent.turnStarted request.userInput,
       SessionEvent.userEvent request.userInput,
       SessionEvent.errorEvent (exc.kind ++ ": " ++ exc.message),
       SessionEvent.turnFinished "failed"] ∧
    ((runTurn history request t).history = history ∨
      ∃ m : KimiMsg, (runTurn history request t).history.getLast? = some m ∧
        m.role ≠ "user") := by
  have hrt : runTurn history request t =
      ⟨rollbackLastUserMessage (appendUserMessage history request.userInput ++ t.appended),
       [SessionEvent.turnStarted request.userInput,
        SessionEvent.userEvent request.userInput,
        SessionEvent.errorEvent (exc.kind ++ ": " ++ exc.message),
        SessionEvent.turnFinished "failed"]⟩ := by
    simp [runTurn, hout]
  rw [hrt]
  cases happd : t.appended with
  | nil =>
    refine ⟨?_, rfl, ?_⟩
    · have : rollbackLastUserMessage (appendUserMessage history request.userInput ++ []) =
          history := by
        rw [List.append_nil, appendUserMessage, rollbackLastUserMessage,
          List.getLast?_concat]
        simp [messageRole, List.dropLast_concat]
      simpa using this
    · left
      have : rollbackLastUserMessage (appendUserMessage history request.userInput ++ []) =
          history := by
        rw [List.append_nil, appendUserMessage, rollbackLastUserMessage,
          List.getLast?_concat]
        simp [messageRole, List.dropLast_concat]
      simpa using this
  | cons a rest =>
    have hne : (a :: rest) ≠ ([] : List KimiMsg) := by simp
    have hlast2 : (a :: rest).getLast? = some ((a :: rest).getLast hne) :=
      List.getLast?_eq_getLast _ hne
    have hlast : (appendUserMessage history request.userInput ++ (a :: rest)).getLast? =
        some ((a :: rest).getLast hne) := by
      rw [List.getLast?_append, hlast2, Option.or_some]
    have hmem : (a :: rest).getLast hne ∈ a :: rest := List.getLast_mem hne
    have hrole : ((a :: rest).getLast hne).role ≠ "user" := by
      apply happ
      rw [happd]
      exact hmem
    have hnopop : rollbackLastUserMessage
        (appendUserMessage history request.userInput ++ (a :: rest)) =
        appendUserMessage history request.userInput ++ (a :: rest) := by
      rw [rollbackLastUserMessage, hlast]
      simp only [messageRole]
      rw [if_neg hrole]
    refine ⟨?_, rfl, ?_⟩
    · rw [hnopop]
      simp
    · right
      refine ⟨(a :: rest).getLast hne, ?_, hrole⟩
      rw [hnopop, hlast]

/-- Witness for claim C3 on a turn that appended an assistant payload and a
tool result before raising RuntimeError: boom. -/
theorem failed_turn_rolls_back_user_message_witness :
    (runTurn [] ⟨1, "hi"⟩ failingExec).history =
      (if failingExec.appended.isEmpty then []
       else appendUserMessage [] "hi" ++ failingExec.appended) ∧
    (runTurn [] ⟨1, "hi"⟩ failingExec).emitted =
      [SessionEvent.turnStarted "hi", SessionEvent.userEvent "hi",
       SessionEvent.errorEvent ("RuntimeError" ++ ": " ++ "boom"),
       SessionEvent.turnFinished "failed"] ∧
    ((runTurn [] ⟨1, "hi"⟩ failingExec).history = [] ∨
      ∃ m : KimiMsg, (runTurn [] ⟨1, "hi"⟩ failingExec).history.getLast? = some m ∧
        m.role ≠ "user") :=
  failed_turn_rolls_back_user_message [] ⟨1, "hi"⟩ failingExec
    ⟨"RuntimeError", "boom"⟩ rfl (by decide)

end RepoAgent
